import Mathlib

/-!
Verification of the LeetCode harvest engine
(`src/pipeline/stage_1_harvester/harvester.py`).

The Python module is shallowly embedded: JSON documents become the
inductive `Json`; Python dicts become association lists with unique keys
in insertion order; functions that may raise become `Except Unit`
computations (any uncaught Python exception is the `.error ()` case);
`_gql_request`'s `Optional[dict]` result becomes `Option Json`.
-/

namespace Aurika

/-- A JSON-like Python value (the payload of every GraphQL response). -/

inductive Json where
  | null
  | bool (b : Bool)
  | num (n : Int)
  | str (s : String)
  | arr (xs : List Json)
  | obj (kvs : List (String × Json))
deriving Repr, Inhabited

mutual

def beqJson : Json → Json → Bool
  | .null, .null => true
  | .bool a, .bool b => a == b
  | .num a, .num b => a == b
  | .str a, .str b => a == b
  | .arr a, .arr b => beqJsonList a b
  | .obj a, .obj b => beqJsonKVs a b
  | _, _ => false

def beqJsonList : List Json → List Json → Bool
  | [], [] => true
  | x :: xs, y :: ys => beqJson x y && beqJsonList xs ys
  | _, _ => false

def beqJsonKVs : List (String × Json) → List (String × Json) → Bool
  | [], [] => true
  | (k, v) :: xs, (k', v') :: ys => k == k' && beqJson v v' && beqJsonKVs xs ys
  | _, _ => false

end

/-- `beqJson` decides equality (proved as a `def` because the instance
below needs it while the program model is still being set up). -/

def beqJson_spec :
    (∀ a b : Json, beqJson a b = true ↔ a = b) ∧
    (∀ a b : List (String × Json), beqJsonKVs a b = true ↔ a = b) ∧
    (∀ a b : List Json, beqJsonList a b = true ↔ a = b) := by
  apply beqJson.mutual_induct <;> intros <;>
    first
      | (simp_all [beqJson, beqJsonList, beqJsonKVs]; done)
      | (simp_all [beqJson, beqJsonList, beqJsonKVs]
         intro he
         subst he
         casesm Json, List _ <;> simp_all <;>
           (rename_i h
            first
              | exact h _ _ _ _ rfl rfl rfl rfl
              | exact h _ _ _ _ _ _ rfl rfl rfl rfl rfl))

instance : DecidableEq Json := fun a b =>
  decidable_of_iff (beqJson a b = true) (beqJson_spec.1 a b)

/-- Python truthiness (`if x:`) on JSON-like values: `None`, `False`, `0`,
`""`, `[]` and `{}` are falsy, everything else is truthy. -/

def pyTruthy : Json → Bool
  | .null => false
  | .bool b => b
  | .num n => n != 0
  | .str s => decide (s ≠ "")
  | .arr xs => decide (xs ≠ [])
  | .obj kvs => decide (kvs ≠ [])

/-- Key lookup in a Python dict modelled as an association list
(first occurrence wins; real dicts have unique keys). -/

def jlookup (k : String) : List (String × Json) → Option Json
  | [] => none
  | (k', v) :: rest => if k' = k then some v else jlookup k rest

/-- Python `d[k]` with a string key: succeeds only on a dict containing the
key; any other receiver (or a missing key) raises. -/

def pyGetItem (j : Json) (k : String) : Except Unit Json :=
  match j with
  | .obj kvs =>
    match jlookup k kvs with
    | some v => .ok v
    | none => .error ()
  | _ => .error ()

/-- Python `d.get(k)`: `None` when absent; raises unless the receiver is a
dict. -/

def pyGet (j : Json) (k : String) : Except Unit (Option Json) :=
  match j with
  | .obj kvs => .ok (jlookup k kvs)
  | _ => .error ()

/-- Python `k in j` for a string `k`: key membership for dicts, element
membership for lists, substring test for strings; raises otherwise. -/

def pyContains (j : Json) (k : String) : Except Unit Bool :=
  match j with
  | .obj kvs => .ok (jlookup k kvs).isSome
  | .arr xs => .ok (xs.contains (.str k))
  | .str s => .ok (((s.splitOn k).length > 1) || k = "")
  | _ => .error ()

/-- `EXCLUDED_FIELDS` from the harvester module. -/

def EXCLUDED_FIELDS : List String :=
  ["testBodies", "testDescriptions", "testInfo",
   "fullCodeOutput", "stdOutput", "codeOutput",
   "lastTestcase", "expectedOutput",
   "totalCorrect", "totalTestcases",
   "runtimeDistribution", "memoryDistribution",
   "userAvatar", "avatar", "profileUrl",
   "codeSnippets"]

mutual

/-- `LeetCodeHarvester._clean_data`: recursively remove excluded keys. -/
def cleanData : Json → Json
  | .obj kvs => .obj (cleanKVs kvs)
  | .arr xs => .arr (cleanList xs)
  | j => j

/-- `_clean_data` over the entries of a dict (the dict comprehension). -/
def cleanKVs : List (String × Json) → List (String × Json)
  | [] => []
  | (k, v) :: rest =>
    if k ∈ EXCLUDED_FIELDS then cleanKVs rest
    else (k, cleanData v) :: cleanKVs rest

/-- `_clean_data` over the elements of a list (the list comprehension). -/
def cleanList : List Json → List Json
  | [] => []
  | x :: xs => cleanData x :: cleanList xs

end

mutual

/-- Does key `k` occur (as a dict key) anywhere in the tree? -/
def keyOccurs (k : String) : Json → Bool
  | .obj kvs => keyOccursKVs k kvs
  | .arr xs => keyOccursList k xs
  | _ => false

def keyOccursKVs (k : String) : List (String × Json) → Bool
  | [] => false
  | (k', v) :: rest => k' = k || keyOccurs k v || keyOccursKVs k rest

def keyOccursList (k : String) : List Json → Bool
  | [] => false
  | x :: xs => keyOccurs k x || keyOccursList k xs

end

/-- Outcome of one `client.post` to the GraphQL endpoint, as seen by
`_gql_request`: an `httpx.HTTPError` (connection failure, timeout, or a
non-2xx status via `raise_for_status`), a 2xx response whose body is not
JSON (`response.json()` raises, uncaught), or a parsed JSON body. -/

inductive TransportResult where
  | httpError
  | badBody
  | ok (body : Json)
deriving DecidableEq, Repr

/-- `LeetCodeHarvester._gql_request`: returns `None` on `httpx.HTTPError`
or when the parsed body carries an `errors` key; otherwise the body.
A non-JSON body or a body on which `"errors" in data` raises propagates
the exception (`.error`). -/

def gqlRequest : TransportResult → Except Unit (Option Json)
  | .httpError => .ok none
  | .badBody => .error ()
  | .ok body =>
    match pyContains body "errors" with
    | .error _ => .error ()
    | .ok true => .ok none
    | .ok false => .ok (some body)

/-- Python `list.extend(it)` on the accumulator: lists append their
elements, strings their one-character strings, dicts their keys;
non-iterables raise. -/

def pyExtendList (acc : List Json) : Json → Except Unit (List Json)
  | .arr xs => .ok (acc ++ xs)
  | .str s => .ok (acc ++ s.toList.map (fun c => Json.str (String.singleton c)))
  | .obj kvs => .ok (acc ++ kvs.map (fun kv => Json.str kv.1))
  | _ => .error ()

/-- `limit = 20` in `fetch_submission_history`. -/

def LIMIT : Nat := 20

/-- Result of running a fragment of the harvester: a normal return, an
uncaught Python exception, or exhaustion of the step bound (the Python
loop is `while True`, so a bound is threaded through the model). -/

inductive RunOutcome (α : Type) where
  | ok (a : α)
  | raised
  | fuelOut
deriving DecidableEq, Repr

/-- The `while True` loop of `fetch_submission_history`, one constructor
case per iteration. Arguments: request oracle (indexed by offset), fuel,
`offset`, number of requests made so far, `all_submissions`. Returns the
accumulated submissions and the total number of requests. -/

def fetchHistoryAux (oracle : Nat → TransportResult) :
    Nat → Nat → Nat → List Json → RunOutcome (List Json × Nat)
  | 0, _, _, _ => .fuelOut
  | fuel + 1, offset, reqs, acc =>
    match gqlRequest (oracle offset) with
    | .error _ => .raised
    | .ok none => .ok (acc, reqs + 1)
    | .ok (some j) =>
      if pyTruthy j = false then .ok (acc, reqs + 1)
      else
        match pyContains j "data" with
        | .error _ => .raised
        | .ok false => .ok (acc, reqs + 1)
        | .ok true =>
          match pyGetItem j "data" with
          | .error _ => .raised
          | .ok dv =>
            match pyGetItem dv "submissionList" with
            | .error _ => .raised
            | .ok sl =>
              if pyTruthy sl = false then .ok (acc, reqs + 1)
              else
                match pyGetItem sl "submissions", pyGetItem sl "hasNext" with
                | .ok subs, .ok hn =>
                  match pyExtendList acc subs with
                  | .error _ => .raised
                  | .ok acc' =>
                    if pyTruthy hn then
                      fetchHistoryAux oracle fuel (offset + LIMIT) (reqs + 1) acc'
                    else .ok (acc', reqs + 1)
                | _, _ => .raised

/-- `LeetCodeHarvester.fetch_submission_history`: walk the paginated list
starting at offset 0. -/

def fetchHistory (oracle : Nat → TransportResult) (fuel : Nat) :
    RunOutcome (List Json × Nat) :=
  fetchHistoryAux oracle fuel 0 0 []

/-- The JSON body of a well-formed `submissionList` page. -/

def mkPage (hasNext : Bool) (subs : List Json) : Json :=
  Json.obj [("data", Json.obj [("submissionList",
    Json.obj [("hasNext", Json.bool hasNext),
              ("submissions", Json.arr subs)])])]

/-- A terminal response for the walker: either the call yields no usable
data (HTTP error, or a body carrying `errors`) and contributes nothing,
or it is a well-formed page with `hasNext = false` contributing `q`. -/

def TermStop (t : TransportResult) (q : List Json) : Prop :=
  (gqlRequest t = .ok none ∧ q = []) ∨ t = .ok (mkPage false q)

/-- A mock endpoint whose page at offset 0 has `hasNext = true` but an
empty submissions array, and whose page at offset 20 has
`hasNext = false` with one submission. -/

def emptyPageOracle : Nat → TransportResult := fun off =>
  if off = 0 then .ok (mkPage true [])
  else .ok (mkPage false [Json.str "late"])

/-- The spec's mock endpoint: `hasNext = true` pages at offsets 0 and 20,
`hasNext = false` with an empty submissions array at offset 40. -/

def mockOracle (p0 p1 : List Json) : Nat → TransportResult := fun off =>
  if off = 0 then .ok (mkPage true p0)
  else if off = 20 then .ok (mkPage true p1)
  else .ok (mkPage false [])

/-- A mock endpoint with one good page followed by a transport failure. -/

def failAfterOneOracle : Nat → TransportResult := fun off =>
  if off = 0 then .ok (mkPage true [Json.num 7]) else .httpError

/-- Python `{**a, **b}`: the keys of `a` in insertion order with values
overridden by `b` where present, followed by the keys of `b` absent from
`a`, in `b`'s order. -/

def mergeDicts (a b : List (String × Json)) : List (String × Json) :=
  a.map (fun kv => (kv.1, (jlookup kv.1 b).getD kv.2)) ++
    b.filter (fun kv => (jlookup kv.1 a).isNone)

/-- `Optional[dict]` detail responses, keyed by submission id. -/

abbrev DetailOracle := Json → TransportResult

/-- The per-submission body of the loop in `process_problem` (lines
254–263): extract `sub["id"]`, fetch the detail, and either merge the
cleaned detail over the summary (detail wins on key collision) or keep
the bare summary when the response is unusable. -/

def enrichSub (detailO : DetailOracle) (sub : Json) : Except Unit Json :=
  match pyGetItem sub "id" with
  | .error _ => .error ()
  | .ok subId =>
    match gqlRequest (detailO subId) with
    | .error _ => .error ()
    | .ok none => .ok sub
    | .ok (some d) =>
      if pyTruthy d = false then .ok sub
      else
        match pyContains d "data" with
        | .error _ => .error ()
        | .ok false => .ok sub
        | .ok true =>
          match pyGetItem d "data" with
          | .error _ => .error ()
          | .ok dv =>
            match pyGetItem dv "submissionDetails" with
            | .error _ => .error ()
            | .ok sd =>
              if pyTruthy sd = false then .ok sub
              else
                match sub, cleanData sd with
                | .obj skvs, .obj dkvs =>
                  .ok (.obj (mergeDicts skvs dkvs))
                | _, _ => .error ()

/-- The whole `for sub in subs` loop of `process_problem`. -/

def enrichAll (detailO : DetailOracle) : List Json → Except Unit (List Json)
  | [] => .ok []
  | sub :: rest =>
    match enrichSub detailO sub with
    | .error _ => .error ()
    | .ok r =>
      match enrichAll detailO rest with
      | .error _ => .error ()
      | .ok rs => .ok (r :: rs)

/-- `{"slug": ..., "error": ..., "submissions": ...}` appended to
`self.failed_slugs` by `process_problem`'s `except` clause. -/

structure DeadLetterEntry where
  slug : String
  error : String
  submissions : List Json
deriving DecidableEq, Repr

/-- Placeholder for `str(e)` of exceptions other than the explicit
`raise Exception("Failed to fetch problem metadata")`; no theorem depends
on its text. -/

def OTHER_EXC : String := "unhandled exception"

/-- The `try` body of `process_problem` (lines 242–276): fetch metadata
(mandatory — any unusable response raises), enrich every submission, and
build the persisted `<slug>.json` payload. `.error msg` is the raised
exception's `str`. -/

def processItemTry (metaO : TransportResult) (detailO : DetailOracle)
    (slug : String) (subs : List Json) : Except String (String × Json) :=
  match gqlRequest metaO with
  | .error _ => .error OTHER_EXC
  | .ok mr =>
    match mr with
    | none => .error "Failed to fetch problem metadata"
    | some m =>
      if pyTruthy m = false then .error "Failed to fetch problem metadata"
      else
        match pyContains m "data" with
        | .error _ => .error OTHER_EXC
        | .ok false => .error "Failed to fetch problem metadata"
        | .ok true =>
          match pyGetItem m "data" with
          | .error _ => .error OTHER_EXC
          | .ok dv =>
            match pyGetItem dv "question" with
            | .error _ => .error OTHER_EXC
            | .ok qraw =>
              match enrichAll detailO subs with
              | .error _ => .error OTHER_EXC
              | .ok fullSubs =>
                .ok (slug ++ ".json",
                  Json.obj [("question_name", Json.str slug),
                            ("problem_metadata", cleanData qraw),
                            ("submissions", Json.arr fullSubs)])

/-- Result of `process_problem` for one work item: a persisted output
file, or a dead-letter entry. -/

inductive ItemResult where
  | ok (fileName : String) (content : Json)
  | failed (entry : DeadLetterEntry)
deriving DecidableEq, Repr

/-- `LeetCodeHarvester.process_problem`: the `except` clause converts any
exception raised in the `try` body into a DeadLetterEntry carrying the
item's slug and its original submission summaries. -/

def processItem (metaO : TransportResult) (detailO : DetailOracle)
    (slug : String) (subs : List Json) : ItemResult :=
  match processItemTry metaO detailO slug subs with
  | .ok (fn, content) => .ok fn content
  | .error msg => .failed ⟨slug, msg, subs⟩

/-- The fan-out of `harvest_all` / `retry_failed` over the work items
(`asyncio.gather` of `process_problem` tasks): each item independently
either persists its file or appends a dead-letter entry; the model lists
both in item order. -/

def runPass (metaO : String → TransportResult) (detailO : DetailOracle) :
    List (String × List Json) → List (String × Json) × List DeadLetterEntry
  | [] => ([], [])
  | (slug, subs) :: rest =>
    let r := runPass metaO detailO rest
    match processItem (metaO slug) detailO slug subs with
    | .ok fn c => ((fn, c) :: r.1, r.2)
    | .failed e => (r.1, e :: r.2)

/-- The JSON body of a well-formed `submissionDetails` response. -/

def mkDetail (dkvs : List (String × Json)) : Json :=
  Json.obj [("data", Json.obj [("submissionDetails", Json.obj dkvs)])]

/-- A concrete successful metadata response for slug `two-sum`. -/

def sampleMetaResp : TransportResult :=
  .ok (Json.obj [("data", Json.obj [("question",
    Json.obj [("titleSlug", Json.str "two-sum"),
              ("difficulty", Json.str "Easy")])])])

/-- The payload `process_problem` persists for `sampleMetaResp` with no
submissions. -/

def sampleContent : Json :=
  Json.obj [("question_name", Json.str "two-sum"),
            ("problem_metadata",
              Json.obj [("titleSlug", Json.str "two-sum"),
                        ("difficulty", Json.str "Easy")]),
            ("submissions", Json.arr [])]

/-- Metadata oracle for the C1 witness: fails for slug `b`, succeeds
otherwise. -/

def wMetaO : String → TransportResult := fun s =>
  if s = "b" then .httpError
  else .ok (Json.obj [("data", Json.obj [("question", Json.null)])])

/-- The three work items of the C1 witness. -/

def wItems : List (String × List Json) :=
  [("a", []), ("b", [Json.obj [("id", Json.num 1)]]), ("c", [])]

/-- Observable outcome of one `retry_failed` call: the dead-letter
accumulator (`self.failed_slugs`) when the call returns, the output files
written, whether `_save_manifest` ran, and how many times
`fetch_submission_history` was invoked. -/

structure RetryResult where
  failedAfter : List DeadLetterEntry
  files : List (String × Json)
  manifestWritten : Bool
  historyFetches : Nat
deriving DecidableEq, Repr

/-- `LeetCodeHarvester.retry_failed`: an empty argument returns
immediately, leaving `self.failed_slugs` untouched; otherwise the
accumulator is reset to `[]` and each supplied entry is re-processed from
its captured slug and summaries (`item["slug"]`, `item["submissions"]`).
It never saves a manifest and never re-walks the history. -/

def retryFailed (metaO : String → TransportResult) (detailO : DetailOracle)
    (failedBefore : List DeadLetterEntry)
    (failedItems : List DeadLetterEntry) : RetryResult :=
  if failedItems = [] then ⟨failedBefore, [], false, 0⟩
  else
    let r := runPass metaO detailO
      (failedItems.map (fun e => (e.slug, e.submissions)))
    ⟨r.2, r.1, false, 0⟩

/-- A dead-letter entry left over from an earlier pass. -/

def staleEntry : DeadLetterEntry := ⟨"stale", "err", []⟩

/-- The dead-letter entry retried in the C4 witness: slug `two-sum` with
3 captured summaries. -/

def retryEntry : DeadLetterEntry :=
  ⟨"two-sum", "err",
    [Json.obj [("id", Json.num 1)], Json.obj [("id", Json.num 2)],
     Json.obj [("id", Json.num 3)]]⟩

/-- The truthy `titleSlug` of a summary, if any (`slug = sub.get("titleSlug")`
followed by `if slug:`). -/

def slugOf (sub : Json) : Option Json :=
  match sub with
  | .obj kvs =>
    match jlookup "titleSlug" kvs with
    | some s => if pyTruthy s then some s else none
    | none => none
  | _ => none

/-- `grouped[slug].append(sub)` on a `defaultdict(list)` in insertion
order: append to the existing key's list, else add the key at the end. -/

def groupInsert : List (Json × List Json) → Json → Json → List (Json × List Json)
  | [], slug, sub => [(slug, [sub])]
  | (s, l) :: rest, slug, sub =>
    if s = slug then (s, l ++ [sub]) :: rest
    else (s, l) :: groupInsert rest slug sub

/-- One iteration of the grouping loop in `harvest_all` (lines 302–305):
`sub.get("titleSlug")` raises on a non-dict summary; falsy slugs are
skipped. -/

def groupStep (acc : List (Json × List Json)) (sub : Json) :
    Except Unit (List (Json × List Json)) :=
  match pyGet sub "titleSlug" with
  | .error _ => .error ()
  | .ok none => .ok acc
  | .ok (some slug) =>
    if pyTruthy slug then .ok (groupInsert acc slug sub) else .ok acc

/-- The whole grouping loop of `harvest_all`, threading the accumulator. -/

def groupBySlugAux (acc : List (Json × List Json)) :
    List Json → Except Unit (List (Json × List Json))
  | [] => .ok acc
  | sub :: rest =>
    match groupStep acc sub with
    | .error _ => .error ()
    | .ok acc' => groupBySlugAux acc' rest

/-- Grouping of the summary sequence by problem slug (`harvest_all`,
lines 301–305). -/

def groupBySlug (subs : List Json) : Except Unit (List (Json × List Json)) :=
  groupBySlugAux [] subs

/-- The elements of a list in order of first occurrence. -/

def firstSeen : List Json → List Json
  | [] => []
  | x :: xs => x :: (firstSeen xs).filter (fun y => y ≠ x)

/-- The grouping a pure specification would produce: slugs in first-seen
order, each mapped to the subsequence of summaries bearing it. -/

def canonicalGroup (subs : List Json) : List (Json × List Json) :=
  (firstSeen (subs.filterMap slugOf)).map
    (fun s => (s, subs.filter (fun sub => slugOf sub = some s)))

/-- The summary sequence of the C8 witness: two slugs, one slug-less
summary. -/

def wSummaries : List Json :=
  [Json.obj [("titleSlug", Json.str "a"), ("id", Json.num 1)],
   Json.obj [("id", Json.num 2)],
   Json.obj [("titleSlug", Json.str "a"), ("id", Json.num 3)],
   Json.obj [("titleSlug", Json.str "b"), ("id", Json.num 4)]]

/-- `CONCURRENCY_LIMIT = 25`, the permit count of
`asyncio.Semaphore(CONCURRENCY_LIMIT)` in `__init__`. -/

def CONCURRENCY_LIMIT : Nat := 25

/-- Phase of one `process_problem` task in the fan-out: not yet holding a
permit, holding a permit with its network calls in flight (inside
`async with self.semaphore`), or finished — the permit is released on
completion and on failure alike, recorded by the flag. -/

inductive TaskPhase where
  | pending
  | inFlight
  | done (succeeded : Bool)
deriving DecidableEq, Repr

/-- One state of the cooperative scheduler: the phase of every item task. -/

abbrev SchedState := List TaskPhase

/-- Number of tasks currently holding a permit. -/

def inFlightCount (s : SchedState) : Nat :=
  (s.filter (fun p => p = TaskPhase.inFlight)).length

/-- One scheduler transition: a pending task may acquire a permit only
when fewer than `limit` tasks hold one (`async with self.semaphore`
blocks otherwise); an in-flight task may finish at any suspension point,
successfully or by raising, releasing its permit unconditionally. -/

inductive SchedStep (limit : Nat) : SchedState → SchedState → Prop where
  | start (s1 s2 : SchedState) :
      inFlightCount (s1 ++ TaskPhase.pending :: s2) < limit →
      SchedStep limit (s1 ++ TaskPhase.pending :: s2)
        (s1 ++ TaskPhase.inFlight :: s2)
  | finish (s1 s2 : SchedState) (ok : Bool) :
      SchedStep limit (s1 ++ TaskPhase.inFlight :: s2)
        (s1 ++ TaskPhase.done ok :: s2)

/-- States reachable from `n` not-yet-started item tasks. -/

inductive SchedReachable (limit n : Nat) : SchedState → Prop where
  | init : SchedReachable limit n (List.replicate n TaskPhase.pending)
  | step {s t : SchedState} : SchedReachable limit n s →
      SchedStep limit s t → SchedReachable limit n t

/-- The dict comprehension in `_clean_data` is a filter of the non-excluded
entries followed by recursive cleaning of the kept values. -/
theorem cleanKVs_eq (kvs : List (String × Json)) :
    cleanKVs kvs =
      (kvs.filter (fun kv => kv.1 ∉ EXCLUDED_FIELDS)).map
        (fun kv => (kv.1, cleanData kv.2)) := by
  induction kvs with
  | nil => rfl
  | cons kv rest ih =>
    obtain ⟨k, v⟩ := kv
    by_cases hk : k ∈ EXCLUDED_FIELDS <;>
      simp [cleanKVs, hk, ih]

/-- The list comprehension in `_clean_data` is a map. -/
theorem cleanList_eq (xs : List Json) : cleanList xs = xs.map cleanData := by
  induction xs with
  | nil => rfl
  | cons x rest ih => simp [cleanList, ih]

/-- No excluded key survives `_clean_data`, at any depth. -/
theorem keyOccurs_cleanData (k : String) (hk : k ∈ EXCLUDED_FIELDS) :
    (∀ j, keyOccurs k (cleanData j) = false) ∧
    (∀ xs, keyOccursList k (cleanList xs) = false) ∧
    (∀ kvs, keyOccursKVs k (cleanKVs kvs) = false) := by
  apply cleanData.mutual_induct <;> intros <;>
    simp_all [cleanData, cleanKVs, cleanList,
      keyOccurs, keyOccursKVs, keyOccursList]
  rintro rfl
  exact absurd hk (by assumption)

/-- `_clean_data` is idempotent. -/
theorem cleanData_idem :
    (∀ j, cleanData (cleanData j) = cleanData j) ∧
    (∀ xs, cleanList (cleanList xs) = cleanList xs) ∧
    (∀ kvs, cleanKVs (cleanKVs kvs) = cleanKVs kvs) := by
  apply cleanData.mutual_induct <;> intros <;>
    simp_all [cleanData, cleanKVs, cleanList]

/-- Running the walker loop over a sequence of well-formed pages carrying
`hasNext = true`, followed by a terminal response, accumulates the pages
in discovery order and makes one request per response. -/
theorem fetchHistoryAux_run (oracle : Nat → TransportResult) :
    ∀ (ps : List (List Json)) (q : List Json) (offset reqs : Nat)
      (acc : List Json) (m : Nat),
      (∀ i, (h : i < ps.length) →
        oracle (offset + LIMIT * i) = .ok (mkPage true (ps.get ⟨i, h⟩))) →
      TermStop (oracle (offset + LIMIT * ps.length)) q →
      fetchHistoryAux oracle (ps.length + 1 + m) offset reqs acc =
        .ok (acc ++ ps.flatten ++ q, reqs + ps.length + 1) := by
  intro ps
  induction ps with
  | nil =>
    intro q offset reqs acc m _ ht
    rw [show ([] : List (List Json)).length + 1 + m = m + 1 by simp; omega]
    rw [show offset + LIMIT * ([] : List (List Json)).length = offset
      by simp] at ht
    rcases ht with ⟨hnone, rfl⟩ | hpage
    · simp [fetchHistoryAux, hnone]
    · simp [fetchHistoryAux, hpage, gqlRequest, mkPage, pyContains, jlookup,
        pyTruthy, pyGetItem, pyExtendList]
  | cons p ps ih =>
    intro q offset reqs acc m hp ht
    have h0 := hp 0 (by simp)
    rw [show offset + LIMIT * 0 = offset by omega] at h0
    rw [show (p :: ps).length + 1 + m = (ps.length + 1 + m) + 1
      by simp; omega]
    have hstep :
        fetchHistoryAux oracle ((ps.length + 1 + m) + 1) offset reqs acc =
          fetchHistoryAux oracle (ps.length + 1 + m) (offset + LIMIT)
            (reqs + 1) (acc ++ p) := by
      simp [fetchHistoryAux, h0, gqlRequest, mkPage, pyContains, jlookup,
        pyTruthy, pyGetItem, pyExtendList]
    rw [hstep]
    rw [ih q (offset + LIMIT) (reqs + 1) (acc ++ p) m
      (fun i h => by
        have := hp (i + 1) (by simpa using Nat.succ_lt_succ h)
        rw [show offset + LIMIT * (i + 1) = offset + LIMIT + LIMIT * i
          by ring] at this
        simpa using this)
      (by
        rw [show offset + LIMIT + LIMIT * ps.length =
          offset + LIMIT * (p :: ps).length by simp; ring]
        exact ht)]
    simp
    omega

/-- C2 counterexample: on a mock whose first page is empty but reports
`hasNext = true`, the walker does not stop at the empty page — it issues
a second request and returns the second page's submission. -/
theorem pagination_empty_page_not_stop :
    fetchHistory emptyPageOracle 10 = .ok ([Json.str "late"], 2) ∧
    ¬ fetchHistory emptyPageOracle 10 = .ok ([], 1) := by
  constructor <;> decide

/-- C2 (amended) — Pagination termination: the walker starts at offset 0
with page size 20 and advances the offset by 20 per request; it stops as
soon as the service reports no further page (`hasNext = false`),
returning the concatenation of all pages in order after one request per
page; on the spec's mock endpoint it makes exactly 3 requests and
returns the concatenation of the first two pages. -/
theorem pagination_termination :
    (∀ (oracle : Nat → TransportResult) (ps : List (List Json))
       (q : List Json) (m : Nat),
      (∀ i, (h : i < ps.length) →
        oracle (LIMIT * i) = .ok (mkPage true (ps.get ⟨i, h⟩))) →
      oracle (LIMIT * ps.length) = .ok (mkPage false q) →
      fetchHistory oracle (ps.length + 1 + m) =
        .ok (ps.flatten ++ q, ps.length + 1)) ∧
    (∀ (p0 p1 : List Json) (m : Nat),
      fetchHistory (mockOracle p0 p1) (3 + m) = .ok (p0 ++ p1, 3)) := by
  have main : ∀ (oracle : Nat → TransportResult) (ps : List (List Json))
       (q : List Json) (m : Nat),
      (∀ i, (h : i < ps.length) →
        oracle (LIMIT * i) = .ok (mkPage true (ps.get ⟨i, h⟩))) →
      oracle (LIMIT * ps.length) = .ok (mkPage false q) →
      fetchHistory oracle (ps.length + 1 + m) =
        .ok (ps.flatten ++ q, ps.length + 1) := by
    intro oracle ps q m hp ht
    have := fetchHistoryAux_run oracle ps q 0 0 [] m
      (fun i h => by simpa using hp i h)
      (Or.inr (by simpa using ht))
    simpa [fetchHistory] using this
  refine ⟨main, fun p0 p1 m => ?_⟩
  have := main (mockOracle p0 p1) [p0, p1] [] m
    (fun i h => by
      match i, h with
      | 0, _ => simp [mockOracle, LIMIT]
      | 1, _ => simp [mockOracle, LIMIT])
    (by simp [mockOracle, LIMIT])
  simpa [show (2 : Nat) + 1 + m = 3 + m by omega] using this

/-- Witness for C2: the general pagination theorem applied to a concrete
two-page mock. -/
theorem pagination_termination_witness :
    fetchHistory (mockOracle [Json.num 1] [Json.num 2, Json.num 3]) 3 =
      .ok ([Json.num 1, Json.num 2, Json.num 3], 3) := by
  have := pagination_termination.1
    (mockOracle [Json.num 1] [Json.num 2, Json.num 3])
    [[Json.num 1], [Json.num 2, Json.num 3]] [] 0
    (by decide) (by decide)
  simpa using this

/-- C5 — Walker best-effort failure policy: if every earlier page request
yields a well-formed `hasNext = true` page and some page request fails at
the transport level (HTTP error) or protocol level (2xx body carrying an
`errors` field), the walker stops there and returns the submissions
accumulated from the earlier pages — a normal return, not an exception. -/
theorem walker_best_effort
    (oracle : Nat → TransportResult) (ps : List (List Json)) (m : Nat)
    (hp : ∀ i, (h : i < ps.length) →
      oracle (LIMIT * i) = .ok (mkPage true (ps.get ⟨i, h⟩)))
    (hfail : oracle (LIMIT * ps.length) = .httpError ∨
      ∃ body, oracle (LIMIT * ps.length) = .ok body ∧
        pyContains body "errors" = .ok true) :
    fetchHistory oracle (ps.length + 1 + m) =
      .ok (ps.flatten, ps.length + 1) := by
  have hnone : gqlRequest (oracle (LIMIT * ps.length)) = .ok none := by
    rcases hfail with h | ⟨body, hb, he⟩
    · rw [h]; rfl
    · rw [hb]; simp [gqlRequest, he]
  have := fetchHistoryAux_run oracle ps [] 0 0 [] m
    (fun i h => by simpa using hp i h)
    (Or.inl ⟨by simpa using hnone, rfl⟩)
  simpa [fetchHistory] using this

/-- Witness for C5: one good page, then an HTTP error; the walker returns
the first page's submissions after two requests. -/
theorem walker_best_effort_witness :
    fetchHistory failAfterOneOracle 5 = .ok ([Json.num 7], 2) := by
  have := walker_best_effort failAfterOneOracle [[Json.num 7]] 3
    (by decide) (Or.inl (by decide))
  simpa using this

/-- C7 — Redaction completeness and structure preservation: for every
JSON-like tree, no key of `EXCLUDED_FIELDS` occurs at any depth in
`_clean_data`'s output; a dict keeps exactly its non-excluded entries with
recursively cleaned values; lists pass through as a recursive map and
scalars unchanged; and `_clean_data` is idempotent. -/
theorem redaction_correct (j : Json) :
    (∀ k, k ∈ EXCLUDED_FIELDS → keyOccurs k (cleanData j) = false) ∧
    (∀ kvs, cleanData (Json.obj kvs) =
      Json.obj ((kvs.filter (fun kv => kv.1 ∉ EXCLUDED_FIELDS)).map
        (fun kv => (kv.1, cleanData kv.2)))) ∧
    (∀ xs, cleanData (Json.arr xs) = Json.arr (xs.map cleanData)) ∧
    cleanData Json.null = Json.null ∧
    (∀ b, cleanData (Json.bool b) = Json.bool b) ∧
    (∀ n, cleanData (Json.num n) = Json.num n) ∧
    (∀ s, cleanData (Json.str s) = Json.str s) ∧
    cleanData (cleanData j) = cleanData j := by
  refine ⟨fun k hk => (keyOccurs_cleanData k hk).1 j, fun kvs => ?_,
    fun xs => ?_, rfl, fun b => rfl, fun n => rfl, fun s => rfl,
    cleanData_idem.1 j⟩
  · simp [cleanData, cleanKVs_eq]
  · simp [cleanData, cleanList_eq]

/-- Witness for C7 on a concrete tree containing excluded keys at two
depths. -/
theorem redaction_correct_witness :
    ("avatar" ∈ EXCLUDED_FIELDS ∧
      keyOccurs "avatar"
        (cleanData (Json.obj
          [("code", Json.str "x"),
           ("avatar", Json.str "y"),
           ("user", Json.obj [("avatar", Json.null),
                              ("name", Json.str "n")])])) = false) ∧
    cleanData (cleanData (Json.obj
          [("code", Json.str "x"),
           ("avatar", Json.str "y"),
           ("user", Json.obj [("avatar", Json.null),
                              ("name", Json.str "n")])])) =
      cleanData (Json.obj
          [("code", Json.str "x"),
           ("avatar", Json.str "y"),
           ("user", Json.obj [("avatar", Json.null),
                              ("name", Json.str "n")])]) :=
  ⟨⟨by decide,
    (redaction_correct (Json.obj
      [("code", Json.str "x"),
       ("avatar", Json.str "y"),
       ("user", Json.obj [("avatar", Json.null),
                          ("name", Json.str "n")])])).1 "avatar" (by decide)⟩,
   (redaction_correct (Json.obj
      [("code", Json.str "x"),
       ("avatar", Json.str "y"),
       ("user", Json.obj [("avatar", Json.null),
                          ("name", Json.str "n")])])).2.2.2.2.2.2.2⟩

theorem jlookup_append (k : String) (xs ys : List (String × Json)) :
    jlookup k (xs ++ ys) =
      match jlookup k xs with
      | some v => some v
      | none => jlookup k ys := by
  induction xs with
  | nil => simp [jlookup]
  | cons kv rest ih =>
    obtain ⟨k', v⟩ := kv
    by_cases hk : k' = k <;> simp [jlookup, hk, ih]

theorem jlookup_map_override (k : String) (a b : List (String × Json)) :
    jlookup k (a.map (fun kv => (kv.1, (jlookup kv.1 b).getD kv.2))) =
      (jlookup k a).map (fun v => (jlookup k b).getD v) := by
  induction a with
  | nil => simp [jlookup]
  | cons kv rest ih =>
    obtain ⟨k', v⟩ := kv
    by_cases hk : k' = k <;> simp [jlookup, hk, ih]

theorem jlookup_filter_other (k : String) (a b : List (String × Json))
    (ha : jlookup k a = none) :
    jlookup k (b.filter (fun kv => (jlookup kv.1 a).isNone)) =
      jlookup k b := by
  induction b with
  | nil => simp
  | cons kv rest ih =>
    obtain ⟨k', v⟩ := kv
    by_cases hk : k' = k
    · subst hk
      simp [List.filter_cons, ha, jlookup, ih]
    · by_cases hkeep : (jlookup k' a).isNone <;>
        simp [List.filter_cons, hkeep, jlookup, hk, ih]

/-- Resolution of Python dict merge: a key of `a` takes `b`'s value when
`b` also has it, else its own; keys only in `b` take `b`'s value. -/
theorem jlookup_mergeDicts (k : String) (a b : List (String × Json)) :
    jlookup k (mergeDicts a b) =
      match jlookup k a with
      | some v => some ((jlookup k b).getD v)
      | none => jlookup k b := by
  rw [mergeDicts, jlookup_append, jlookup_map_override]
  cases h : jlookup k a with
  | some v => simp
  | none => simp [jlookup_filter_other k a b h]

theorem jlookup_some_ne_nil {k : String} {l : List (String × Json)} {v : Json}
    (h : jlookup k l = some v) : l ≠ [] := by
  intro hnil
  subst hnil
  simp [jlookup] at h

theorem enrichAll_length (detailO : DetailOracle) :
    ∀ subs rs, enrichAll detailO subs = .ok rs → rs.length = subs.length := by
  intro subs
  induction subs with
  | nil =>
    intro rs h
    simp [enrichAll] at h
    simp [← h]
  | cons sub rest ih =>
    intro rs h
    unfold enrichAll at h
    cases he : enrichSub detailO sub with
    | error e => rw [he] at h; simp at h
    | ok r =>
      rw [he] at h
      cases ha : enrichAll detailO rest with
      | error e => rw [ha] at h; simp at h
      | ok rs' =>
        rw [ha] at h
        simp at h
        subst h
        simp [ih rs' ha]

/-- Shape of every successful `process_problem` outcome: the file is
`<slug>.json` and the payload is the saved dict with one submission
record per summary. -/
theorem processItem_ok_shape {metaO : TransportResult} {detailO : DetailOracle}
    {slug : String} {subs : List Json} {fn : String} {c : Json}
    (h : processItem metaO detailO slug subs = .ok fn c) :
    fn = slug ++ ".json" ∧
    ∃ meta records,
      c = Json.obj [("question_name", Json.str slug),
                    ("problem_metadata", meta),
                    ("submissions", Json.arr records)] ∧
      records.length = subs.length := by
  unfold processItem at h
  cases htry : processItemTry metaO detailO slug subs with
  | error msg => rw [htry] at h; simp at h
  | ok p =>
    obtain ⟨fn', c'⟩ := p
    rw [htry] at h
    simp at h
    obtain ⟨rfl, rfl⟩ := h
    unfold processItemTry at htry
    repeat split at htry <;> try simp at htry
    rename_i fullSubs hfull
    obtain ⟨rfl, rfl⟩ := htry
    exact ⟨rfl, _, fullSubs, rfl, enrichAll_length detailO subs fullSubs hfull⟩

/-- A metadata request yielding no usable data dead-letters the item with
the explicit `raise` message and the original summaries. -/
theorem processItem_meta_fail {metaO : TransportResult} (detailO : DetailOracle)
    (slug : String) (subs : List Json)
    (hfail : gqlRequest metaO = .ok none) :
    processItem metaO detailO slug subs =
      .failed ⟨slug, "Failed to fetch problem metadata", subs⟩ := by
  unfold processItem processItemTry
  rw [hfail]

theorem append_json_suffix_inj {a b : String}
    (h : a ++ ".json" = b ++ ".json") : a = b := by
  have hd := congrArg String.data h
  simp only [String.data_append] at hd
  have := List.append_cancel_right hd
  cases a; cases b
  exact congrArg String.mk this

/-- A pass over items that all succeed produces no dead letters and one
file per item, named by its slug. -/
theorem runPass_all_ok (metaO : String → TransportResult) (detailO : DetailOracle)
    (items : List (String × List Json))
    (hok : ∀ it ∈ items, ∃ fn c,
      processItem (metaO it.1) detailO it.1 it.2 = .ok fn c) :
    (runPass metaO detailO items).2 = [] ∧
    (runPass metaO detailO items).1.map Prod.fst =
      items.map (fun it => it.1 ++ ".json") := by
  induction items with
  | nil => simp [runPass]
  | cons it rest ih =>
    obtain ⟨s, ss⟩ := it
    obtain ⟨fn, c, hfc⟩ := hok (s, ss) (by simp)
    obtain ⟨hfn, _⟩ := processItem_ok_shape hfc
    subst hfn
    obtain ⟨hdl, hfiles⟩ := ih (fun it hit => hok it (List.mem_cons_of_mem _ hit))
    simp [runPass, hfc, hdl, hfiles]

/-- C6 — Merge invariant: the submission record keeps every key of its
source summary unless that key is redacted; on a key present in both the
summary and the cleaned detail, the detail's value wins; when the detail
fetch yields no usable data, the record is exactly the bare summary; and
a well-formed detail response produces exactly the merge of the cleaned
detail over the summary. -/
theorem merge_invariant :
    (∀ (skvs dkvs : List (String × Json)) (k : String),
      (jlookup k skvs).isSome → k ∉ EXCLUDED_FIELDS →
      (jlookup k (mergeDicts skvs (cleanKVs dkvs))).isSome) ∧
    (∀ (skvs dkvs : List (String × Json)) (k : String) (v : Json),
      (jlookup k skvs).isSome → jlookup k (cleanKVs dkvs) = some v →
      jlookup k (mergeDicts skvs (cleanKVs dkvs)) = some v) ∧
    (∀ (detailO : DetailOracle) (sub subId : Json),
      pyGetItem sub "id" = .ok subId →
      gqlRequest (detailO subId) = .ok none →
      enrichSub detailO sub = .ok sub) ∧
    (∀ (detailO : DetailOracle) (skvs dkvs : List (String × Json)) (subId : Json),
      pyGetItem (Json.obj skvs) "id" = .ok subId →
      detailO subId = .ok (mkDetail dkvs) →
      dkvs ≠ [] →
      enrichSub detailO (Json.obj skvs) =
        .ok (Json.obj (mergeDicts skvs (cleanKVs dkvs)))) := by
  refine ⟨fun skvs dkvs k hs _ => ?_, fun skvs dkvs k v hs hd => ?_,
    fun detailO sub subId hid hnone => ?_,
    fun detailO skvs dkvs subId hid hresp hne => ?_⟩
  · rw [jlookup_mergeDicts]
    obtain ⟨v, hv⟩ := Option.isSome_iff_exists.mp hs
    rw [hv]
    simp
  · rw [jlookup_mergeDicts]
    obtain ⟨w, hw⟩ := Option.isSome_iff_exists.mp hs
    rw [hw, hd]
    simp
  · unfold enrichSub
    rw [hid]
    simp [hnone]
  · unfold enrichSub
    rw [hid]
    simp only [hresp]
    simp [gqlRequest, mkDetail, pyContains, jlookup, pyTruthy,
      pyGetItem, cleanData, hne]

/-- Witness for C6 on a concrete summary and detail: `runtime` collides
and takes the detail's value, `lang` survives from the summary, an
excluded key is dropped, and a failed fetch keeps the bare summary. -/
theorem merge_invariant_witness :
    (jlookup "lang" (mergeDicts
      [("id", Json.num 1), ("lang", Json.str "py"), ("runtime", Json.str "50 ms")]
      (cleanKVs [("runtime", Json.str "40 ms"), ("codeOutput", Json.str "x")]))).isSome ∧
    jlookup "runtime" (mergeDicts
      [("id", Json.num 1), ("lang", Json.str "py"), ("runtime", Json.str "50 ms")]
      (cleanKVs [("runtime", Json.str "40 ms"), ("codeOutput", Json.str "x")])) =
      some (Json.str "40 ms") ∧
    enrichSub (fun _ => .httpError) (Json.obj [("id", Json.num 1)]) =
      .ok (Json.obj [("id", Json.num 1)]) ∧
    enrichSub (fun _ => .ok (mkDetail [("runtime", Json.str "40 ms")]))
      (Json.obj [("id", Json.num 1)]) =
      .ok (Json.obj (mergeDicts [("id", Json.num 1)]
        (cleanKVs [("runtime", Json.str "40 ms")]))) :=
  ⟨merge_invariant.1
      [("id", Json.num 1), ("lang", Json.str "py"), ("runtime", Json.str "50 ms")]
      [("runtime", Json.str "40 ms"), ("codeOutput", Json.str "x")]
      "lang" (by decide) (by decide),
   merge_invariant.2.1
      [("id", Json.num 1), ("lang", Json.str "py"), ("runtime", Json.str "50 ms")]
      [("runtime", Json.str "40 ms"), ("codeOutput", Json.str "x")]
      "runtime" (Json.str "40 ms") (by decide) (by decide),
   merge_invariant.2.2.1 (fun _ => .httpError)
      (Json.obj [("id", Json.num 1)]) (Json.num 1) (by rfl) (by rfl),
   merge_invariant.2.2.2 (fun _ => .ok (mkDetail [("runtime", Json.str "40 ms")]))
      [("id", Json.num 1)] [("runtime", Json.str "40 ms")] (Json.num 1)
      (by rfl) (by rfl) (by decide)⟩

/-- C10 — A 2xx metadata response without an `errors` field whose
`data.question` is null does not dead-letter the item: `process_problem`
persists the output with a null `problem_metadata` and the item's
submission records. -/
theorem null_question_persists
    (metaO : TransportResult) (detailO : DetailOracle) (slug : String)
    (subs recs : List Json) (mkvs dkvs : List (String × Json))
    (hmeta : gqlRequest metaO = .ok (some (Json.obj mkvs)))
    (hdata : jlookup "data" mkvs = some (Json.obj dkvs))
    (hq : jlookup "question" dkvs = some Json.null)
    (hsubs : enrichAll detailO subs = .ok recs) :
    processItem metaO detailO slug subs =
      .ok (slug ++ ".json")
        (Json.obj [("question_name", Json.str slug),
                   ("problem_metadata", Json.null),
                   ("submissions", Json.arr recs)]) := by
  have hne : mkvs ≠ [] := jlookup_some_ne_nil hdata
  unfold processItem processItemTry
  rw [hmeta]
  simp [pyTruthy, hne, pyContains, hdata, pyGetItem, hq, hsubs, cleanData]

/-- Witness for C10: a concrete null-`question` response with one
submission summary. -/
theorem null_question_persists_witness :
    processItem (.ok (Json.obj [("data", Json.obj [("question", Json.null)])]))
      (fun _ => .httpError) "two-sum" [Json.obj [("id", Json.num 1)]] =
      .ok ("two-sum" ++ ".json")
        (Json.obj [("question_name", Json.str "two-sum"),
                   ("problem_metadata", Json.null),
                   ("submissions", Json.arr [Json.obj [("id", Json.num 1)]])]) :=
  null_question_persists
    (.ok (Json.obj [("data", Json.obj [("question", Json.null)])]))
    (fun _ => .httpError) "two-sum"
    [Json.obj [("id", Json.num 1)]] [Json.obj [("id", Json.num 1)]]
    [("data", Json.obj [("question", Json.null)])] [("question", Json.null)]
    (by rfl) (by decide) (by decide) (by rfl)

/-- C3 counterexample: the persisted payload names the slug field
`question_name`; it has no `problem_slug` key. -/
theorem persisted_output_no_problem_slug :
    processItem sampleMetaResp (fun _ => .httpError) "two-sum" [] =
      .ok "two-sum.json" sampleContent ∧
    pyContains sampleContent "problem_slug" = .ok false ∧
    pyContains sampleContent "question_name" = .ok true :=
  ⟨by rfl, by rfl, by rfl⟩

/-- C3 (amended) — Persisted output structure: every successfully
processed work item yields exactly one file named `<slug>.json` whose
content is `{ question_name, problem_metadata, submissions }` (the slug
field is named `question_name`, not `problem_slug`), where
`question_name` equals the item's slug and `submissions` has one record
per summary in the item. -/
theorem persisted_output_structure
    (metaO : TransportResult) (detailO : DetailOracle)
    (slug : String) (subs : List Json) (fn : String) (c : Json)
    (h : processItem metaO detailO slug subs = .ok fn c) :
    fn = slug ++ ".json" ∧
    ∃ meta records,
      c = Json.obj [("question_name", Json.str slug),
                    ("problem_metadata", meta),
                    ("submissions", Json.arr records)] ∧
      records.length = subs.length :=
  processItem_ok_shape h

/-- Witness for C3 at a concrete successful item with one summary. -/
theorem persisted_output_structure_witness :
    ("two-sum.json" : String) = "two-sum" ++ ".json" ∧
    ∃ meta records,
      Json.obj [("question_name", Json.str "two-sum"),
                ("problem_metadata",
                  Json.obj [("titleSlug", Json.str "two-sum"),
                            ("difficulty", Json.str "Easy")]),
                ("submissions", Json.arr [Json.obj [("id", Json.num 9)]])] =
        Json.obj [("question_name", Json.str "two-sum"),
                  ("problem_metadata", meta),
                  ("submissions", Json.arr records)] ∧
      records.length = [Json.obj [("id", Json.num 9)]].length :=
  persisted_output_structure sampleMetaResp (fun _ => .httpError) "two-sum"
    [Json.obj [("id", Json.num 9)]] "two-sum.json"
    (Json.obj [("question_name", Json.str "two-sum"),
               ("problem_metadata",
                 Json.obj [("titleSlug", Json.str "two-sum"),
                           ("difficulty", Json.str "Easy")]),
               ("submissions", Json.arr [Json.obj [("id", Json.num 9)]])])
    (by rfl)

/-- A pass in which exactly the item with the given slug has a failing
metadata fetch produces exactly that item's dead-letter entry, and one
file per other item. -/
theorem runPass_one_fail (metaO : String → TransportResult)
    (detailO : DetailOracle) :
    ∀ (items : List (String × List Json)) (slugX : String)
      (subsX : List Json),
      (slugX, subsX) ∈ items →
      (items.map Prod.fst).Nodup →
      gqlRequest (metaO slugX) = .ok none →
      (∀ it ∈ items, it.1 ≠ slugX →
        ∃ fn c, processItem (metaO it.1) detailO it.1 it.2 = .ok fn c) →
      (runPass metaO detailO items).2 =
        [⟨slugX, "Failed to fetch problem metadata", subsX⟩] ∧
      (runPass metaO detailO items).1.map Prod.fst =
        (items.filter (fun it => it.1 ≠ slugX)).map
          (fun it => it.1 ++ ".json") := by
  intro items
  induction items with
  | nil => intro slugX subsX hmem; simp at hmem
  | cons it rest ih =>
    intro slugX subsX hmem hnodup hfail hok
    obtain ⟨s, ss⟩ := it
    simp only [List.map_cons, List.nodup_cons] at hnodup
    obtain ⟨hs_notin, hnd'⟩ := hnodup
    by_cases hsx : s = slugX
    · subst hsx
      have hss : ss = subsX := by
        rcases List.mem_cons.mp hmem with heq | hmem'
        · exact (Prod.mk.injEq _ _ _ _ ▸ heq).2.symm
        · exact absurd (List.mem_map_of_mem Prod.fst hmem') hs_notin
      subst hss
      have hrest_ok : ∀ it ∈ rest, ∃ fn c,
          processItem (metaO it.1) detailO it.1 it.2 = .ok fn c := by
        intro it hit
        refine hok it (List.mem_cons_of_mem _ hit) fun h1 => ?_
        exact hs_notin (h1 ▸ List.mem_map_of_mem Prod.fst hit)
      obtain ⟨hdl, hfiles⟩ := runPass_all_ok metaO detailO rest hrest_ok
      have hfilter : rest.filter (fun it => !decide (it.1 = s)) = rest := by
        refine List.filter_eq_self.mpr fun it hit => ?_
        simp only [Bool.not_eq_true', decide_eq_false_iff_not]
        exact fun h1 => hs_notin (h1 ▸ List.mem_map_of_mem Prod.fst hit)
      simp [runPass, processItem_meta_fail detailO s ss hfail, hdl, hfiles,
        hfilter]
    · have hmem' : (slugX, subsX) ∈ rest := by
        rcases List.mem_cons.mp hmem with heq | hmem'
        · exact absurd ((Prod.mk.injEq _ _ _ _ ▸ heq).1.symm) hsx
        · exact hmem'
      obtain ⟨fn, c, hfc⟩ := hok (s, ss) (by simp) hsx
      obtain ⟨hfn, -⟩ := processItem_ok_shape hfc
      subst hfn
      obtain ⟨hdl, hfiles⟩ := ih slugX subsX hmem' hnd' hfail
        (fun it hit h1 => hok it (List.mem_cons_of_mem _ hit) h1)
      simp [runPass, hfc, hdl, hfiles, hsx]

/-- C1 — Failure isolation: over work items with distinct slugs, if
exactly one item's metadata fetch yields no usable data while every other
item's requests succeed, then exactly one DeadLetterEntry is appended —
carrying that item's slug, the raised error message, and its original
summaries — no output file is written for the failed item, and one
`<slug>.json` file is written for every other item. -/
theorem failure_isolation
    (metaO : String → TransportResult) (detailO : DetailOracle)
    (items : List (String × List Json)) (slugX : String) (subsX : List Json)
    (hmem : (slugX, subsX) ∈ items)
    (hnodup : (items.map Prod.fst).Nodup)
    (hfail : gqlRequest (metaO slugX) = .ok none)
    (hok : ∀ it ∈ items, it.1 ≠ slugX →
      ∃ fn c, processItem (metaO it.1) detailO it.1 it.2 = .ok fn c) :
    (runPass metaO detailO items).2 =
      [⟨slugX, "Failed to fetch problem metadata", subsX⟩] ∧
    (runPass metaO detailO items).1.map Prod.fst =
      (items.filter (fun it => it.1 ≠ slugX)).map
        (fun it => it.1 ++ ".json") ∧
    slugX ++ ".json" ∉ (runPass metaO detailO items).1.map Prod.fst := by
  obtain ⟨h1, h2⟩ :=
    runPass_one_fail metaO detailO items slugX subsX hmem hnodup hfail hok
  refine ⟨h1, h2, ?_⟩
  rw [h2]
  intro hin
  simp only [List.mem_map] at hin
  obtain ⟨it, hit, heq⟩ := hin
  have hfe := (List.mem_filter.mp hit).2
  simp only [decide_eq_true_eq] at hfe
  exact hfe (append_json_suffix_inj heq)

/-- Witness for C1: among three items, only `b`'s metadata fetch fails;
one dead-letter entry for `b` with its summary, files for `a` and `c`,
none for `b`. -/
theorem failure_isolation_witness :
    (runPass wMetaO (fun _ => .httpError) wItems).2 =
      [⟨"b", "Failed to fetch problem metadata",
        [Json.obj [("id", Json.num 1)]]⟩] ∧
    (runPass wMetaO (fun _ => .httpError) wItems).1.map Prod.fst =
      (wItems.filter (fun it => it.1 ≠ "b")).map
        (fun it => it.1 ++ ".json") ∧
    "b" ++ ".json" ∉ (runPass wMetaO (fun _ => .httpError) wItems).1.map
      Prod.fst :=
  failure_isolation wMetaO (fun _ => .httpError) wItems "b"
    [Json.obj [("id", Json.num 1)]]
    (by decide) (by decide) (by rfl)
    (by
      intro it hit hne
      fin_cases hit
      · exact ⟨"a.json", _, by rfl⟩
      · exact absurd rfl hne
      · exact ⟨"c.json", _, by rfl⟩)

/-- A successfully retried item's file appears in the pass output. -/
theorem runPass_mem_ok (metaO : String → TransportResult)
    (detailO : DetailOracle) :
    ∀ (items : List (String × List Json)) (slug : String) (subs : List Json)
      (fn : String) (c : Json),
      (slug, subs) ∈ items →
      processItem (metaO slug) detailO slug subs = .ok fn c →
      (fn, c) ∈ (runPass metaO detailO items).1 := by
  intro items
  induction items with
  | nil => intro slug subs fn c hmem; simp at hmem
  | cons it rest ih =>
    intro slug subs fn c hmem hpc
    obtain ⟨s, ss⟩ := it
    rcases List.mem_cons.mp hmem with heq | hmem'
    · obtain ⟨rfl, rfl⟩ := Prod.mk.injEq _ _ _ _ ▸ heq
      simp [runPass, hpc]
    · have hrec := ih slug subs fn c hmem' hpc
      unfold runPass
      cases hpp : processItem (metaO s) detailO s ss with
      | ok fn' c' => simpa using Or.inr hrec
      | failed e => simpa using hrec

/-- C4 counterexample: called with an empty dead-letter list,
`retry_failed` returns before resetting the accumulator, so a stale
entry from an earlier pass survives the call. -/
theorem retry_empty_no_reset :
    (retryFailed (fun _ => .httpError) (fun _ => .httpError)
      [staleEntry] []).failedAfter = [staleEntry] ∧
    (retryFailed (fun _ => .httpError) (fun _ => .httpError)
      [staleEntry] []).failedAfter ≠ [] := by
  constructor <;> decide

/-- C4 (amended) — Retry contract: for every NON-EMPTY caller-supplied
dead-letter list, `retry_failed` resets the accumulator before processing
(its outcome is independent of the prior accumulator), never writes the
manifest and never re-invokes the history walker, and processes exactly
the supplied entries from their captured summaries: an entry whose
retried calls succeed yields a HarvestOutput for its slug with one
submission record per captured summary. (For an empty list the call
returns immediately, leaving the accumulator untouched.) -/
theorem retry_contract (metaO : String → TransportResult)
    (detailO : DetailOracle) (failedBefore : List DeadLetterEntry)
    (failedItems : List DeadLetterEntry) (hne : failedItems ≠ []) :
    (∀ failedBefore', retryFailed metaO detailO failedBefore' failedItems =
      retryFailed metaO detailO [] failedItems) ∧
    (retryFailed metaO detailO failedBefore failedItems).manifestWritten
      = false ∧
    (retryFailed metaO detailO failedBefore failedItems).historyFetches
      = 0 ∧
    (∀ e ∈ failedItems, ∀ fn c,
      processItem (metaO e.slug) detailO e.slug e.submissions = .ok fn c →
      (fn, c) ∈ (retryFailed metaO detailO failedBefore failedItems).files ∧
      fn = e.slug ++ ".json" ∧
      ∃ meta records,
        c = Json.obj [("question_name", Json.str e.slug),
                      ("problem_metadata", meta),
                      ("submissions", Json.arr records)] ∧
        records.length = e.submissions.length) := by
  refine ⟨fun failedBefore' => by simp [retryFailed, hne],
    by simp [retryFailed, hne], by simp [retryFailed, hne],
    fun e he fn c hpc => ?_⟩
  obtain ⟨hfn, hshape⟩ := processItem_ok_shape hpc
  refine ⟨?_, hfn, hshape⟩
  simp only [retryFailed, hne, if_false]
  exact runPass_mem_ok metaO detailO _ e.slug e.submissions fn c
    (List.mem_map_of_mem (fun e => (e.slug, e.submissions)) he) hpc

/-- Witness for C4: retrying a single entry for `two-sum` with 3 captured
summaries (metadata now succeeding) writes `two-sum.json` with 3
submission records, without manifest writes or history fetches. -/
theorem retry_contract_witness :
    (retryFailed wMetaO (fun _ => .httpError) [staleEntry]
        [retryEntry]).manifestWritten = false ∧
    (retryFailed wMetaO (fun _ => .httpError) [staleEntry]
        [retryEntry]).historyFetches = 0 ∧
    ("two-sum.json",
      Json.obj [("question_name", Json.str "two-sum"),
                ("problem_metadata", Json.null),
                ("submissions", Json.arr retryEntry.submissions)]) ∈
      (retryFailed wMetaO (fun _ => .httpError) [staleEntry]
        [retryEntry]).files ∧
    (Json.arr retryEntry.submissions = Json.arr retryEntry.submissions ∧
      retryEntry.submissions.length = 3) := by
  have h := retry_contract wMetaO (fun _ => .httpError) [staleEntry]
    [retryEntry] (by decide)
  refine ⟨h.2.1, h.2.2.1, ?_, rfl, by decide⟩
  exact (h.2.2.2 retryEntry (by simp) "two-sum.json"
    (Json.obj [("question_name", Json.str "two-sum"),
               ("problem_metadata", Json.null),
               ("submissions", Json.arr retryEntry.submissions)])
    (by rfl)).1

theorem mem_firstSeen (y : Json) : ∀ xs : List Json,
    y ∈ firstSeen xs ↔ y ∈ xs := by
  intro xs
  induction xs with
  | nil => simp [firstSeen]
  | cons x rest ih =>
    by_cases hy : y = x <;> simp [firstSeen, hy, List.mem_filter, ih]

theorem firstSeen_append (y : Json) : ∀ xs : List Json,
    firstSeen (xs ++ [y]) =
      if y ∈ xs then firstSeen xs else firstSeen xs ++ [y] := by
  intro xs
  induction xs with
  | nil => simp [firstSeen]
  | cons x rest ih =>
    by_cases hy : y ∈ rest
    · have hmc : y ∈ x :: rest := List.mem_cons_of_mem _ hy
      simp only [List.cons_append, firstSeen, List.append_eq]
      rw [ih, if_pos hy, if_pos hmc]
    · by_cases hyx : y = x
      · subst hyx
        have hmc : y ∈ y :: rest := List.mem_cons_self _ _
        simp only [List.cons_append, firstSeen, List.append_eq]
        rw [ih, if_neg hy, if_pos hmc]
        simp [List.filter_append]
      · have hmc : y ∉ x :: rest := by simp [hyx, hy]
        simp only [List.cons_append, firstSeen, List.append_eq]
        rw [ih, if_neg hy, if_neg hmc]
        simp [List.filter_append, hyx]

theorem groupInsert_mem_keys (slug sub : Json) (f : Json → List Json) :
    ∀ ks : List Json, ks.Nodup → slug ∈ ks →
    groupInsert (ks.map fun s => (s, f s)) slug sub =
      ks.map (fun s => (s, if s = slug then f s ++ [sub] else f s)) := by
  intro ks
  induction ks with
  | nil => intro _ hmem; cases hmem
  | cons k rest ih =>
    intro hnd hmem
    simp only [List.nodup_cons] at hnd
    by_cases hk : k = slug
    · subst hk
      simp only [List.map_cons, groupInsert, if_pos rfl]
      refine congrArg _ (List.map_congr_left fun s hs => ?_)
      have : s ≠ k := fun h => hnd.1 (h ▸ hs)
      simp [this]
    · have hmem' : slug ∈ rest := by
        rcases List.mem_cons.mp hmem with h | h
        · exact absurd h.symm hk
        · exact h
      simp only [List.map_cons, groupInsert, if_neg hk]
      rw [ih hnd.2 hmem']

theorem groupInsert_not_mem (slug sub : Json) (f : Json → List Json) :
    ∀ ks : List Json, slug ∉ ks →
    groupInsert (ks.map fun s => (s, f s)) slug sub =
      ks.map (fun s => (s, f s)) ++ [(slug, [sub])] := by
  intro ks
  induction ks with
  | nil => intro _; simp [groupInsert]
  | cons k rest ih =>
    intro hmem
    have hk : k ≠ slug := fun h => hmem (h ▸ List.mem_cons_self _ _)
    simp only [List.map_cons, groupInsert, if_neg hk]
    rw [ih (fun h => hmem (List.mem_cons_of_mem _ h))]
    simp

theorem canonicalGroup_append_none (pre : List Json) (sub : Json)
    (h : slugOf sub = none) :
    canonicalGroup (pre ++ [sub]) = canonicalGroup pre := by
  unfold canonicalGroup
  rw [List.filterMap_append]
  simp only [List.filterMap_cons, h, List.filterMap_nil, List.append_nil]
  refine List.map_congr_left fun s hs => ?_
  rw [List.filter_append]
  have : slugOf sub ≠ some s := by simp [h]
  simp [this]

theorem canonicalGroup_append_some (pre : List Json) (sub slug : Json)
    (h : slugOf sub = some slug) :
    groupInsert (canonicalGroup pre) slug sub =
      canonicalGroup (pre ++ [sub]) := by
  unfold canonicalGroup
  rw [List.filterMap_append]
  simp only [List.filterMap_cons, h, List.filterMap_nil]
  rw [firstSeen_append]
  have hnodup : (firstSeen (pre.filterMap slugOf)).Nodup := by
    clear h
    induction pre.filterMap slugOf with
    | nil => simp [firstSeen]
    | cons x rest ih =>
      simp only [firstSeen, List.nodup_cons]
      exact ⟨by simp, List.Nodup.filter _ ih⟩
  by_cases hmem : slug ∈ pre.filterMap slugOf
  · rw [if_pos hmem]
    rw [groupInsert_mem_keys slug sub _ _ hnodup
      ((mem_firstSeen slug _).mpr hmem)]
    refine List.map_congr_left fun s hs => ?_
    rw [List.filter_append]
    by_cases hssl : s = slug
    · subst hssl
      simp [h]
    · have : ¬ slugOf sub = some s := by simp [h]; exact fun hc => hssl hc.symm
      simp [hssl, this]
  · rw [if_neg hmem]
    rw [groupInsert_not_mem slug sub _ _
      (fun hin => hmem ((mem_firstSeen slug _).mp hin))]
    rw [List.map_append]
    congr 1
    · refine List.map_congr_left fun s hs => ?_
      have hssl : s ≠ slug := fun hc =>
        hmem (hc ▸ (mem_firstSeen s _).mp hs)
      have : ¬ slugOf sub = some s := by
        simp [h]; exact fun hc => hssl hc.symm
      simp [List.filter_append, this]
    · have hfe : pre.filter (fun sub' => slugOf sub' = some slug) = [] := by
        refine List.filter_eq_nil_iff.mpr fun sub' hsub' => ?_
        simp only [decide_eq_true_eq]
        exact fun hc => hmem (List.mem_filterMap.mpr ⟨sub', hsub', hc⟩)
      simp [List.filter_append, hfe, h]

theorem groupBySlugAux_canonical :
    ∀ (subs pre : List Json),
      (∀ sub ∈ subs, ∃ kvs, sub = Json.obj kvs) →
      groupBySlugAux (canonicalGroup pre) subs =
        .ok (canonicalGroup (pre ++ subs)) := by
  intro subs
  induction subs with
  | nil => intro pre _; simp [groupBySlugAux]
  | cons sub rest ih =>
    intro pre hall
    obtain ⟨kvs, rfl⟩ := hall sub (List.mem_cons_self _ _)
    have hrest := fun s hs => hall s (List.mem_cons_of_mem _ hs)
    have hih := ih (pre ++ [Json.obj kvs]) hrest
    rw [List.append_assoc] at hih
    simp only [List.singleton_append] at hih
    unfold groupBySlugAux groupStep
    cases hsl : jlookup "titleSlug" kvs with
    | none =>
      have hnone : slugOf (Json.obj kvs) = none := by simp [slugOf, hsl]
      rw [← canonicalGroup_append_none pre _ hnone]
      simpa [pyGet, hsl] using hih
    | some s =>
      by_cases hts : pyTruthy s
      · have hsome : slugOf (Json.obj kvs) = some s := by
          simp [slugOf, hsl, hts]
        rw [← canonicalGroup_append_some pre _ s hsome] at hih
        simpa [pyGet, hsl, hts] using hih
      · have hnone : slugOf (Json.obj kvs) = none := by
          simp [slugOf, hsl, hts]
        rw [← canonicalGroup_append_none pre _ hnone]
        simpa [pyGet, hsl, hts] using hih

/-- C8 — Grouping: on a sequence of dict summaries, the grouping loop is
a pure deterministic function of the sequence, equal to the canonical
grouping: slugs keyed in first-seen order, each mapped to the subsequence
of summaries bearing that slug in discovery order, with slug-less
summaries dropped. -/
theorem grouping_correct (subs : List Json)
    (hall : ∀ sub ∈ subs, ∃ kvs, sub = Json.obj kvs) :
    groupBySlug subs = .ok (canonicalGroup subs) ∧
    (canonicalGroup subs).map Prod.fst = firstSeen (subs.filterMap slugOf) ∧
    (∀ s l, (s, l) ∈ canonicalGroup subs →
      l = subs.filter (fun sub => slugOf sub = some s)) ∧
    (∀ sub ∈ subs, slugOf sub = none →
      ∀ s l, (s, l) ∈ canonicalGroup subs → sub ∉ l) := by
  refine ⟨?_, ?_, ?_, ?_⟩
  · have := groupBySlugAux_canonical subs [] hall
    have hnil : canonicalGroup [] = [] := by
      simp [canonicalGroup, firstSeen]
    rw [hnil] at this
    simpa [groupBySlug] using this
  · unfold canonicalGroup
    rw [List.map_map]
    exact List.map_id _
  · intro s l hmem
    simp only [canonicalGroup, List.mem_map] at hmem
    obtain ⟨s', _, heq⟩ := hmem
    obtain ⟨rfl, rfl⟩ := Prod.mk.injEq _ _ _ _ ▸ heq
    rfl
  · intro sub hsub hnone s l hmem hin
    simp only [canonicalGroup, List.mem_map] at hmem
    obtain ⟨s', _, heq⟩ := hmem
    obtain ⟨rfl, rfl⟩ := Prod.mk.injEq _ _ _ _ ▸ heq
    have := (List.mem_filter.mp hin).2
    simp only [decide_eq_true_eq] at this
    rw [hnone] at this
    cases this

/-- Witness for C8: the concrete grouping of `wSummaries` — slug `a`
first with its two summaries in order, then slug `b`; the slug-less
summary is dropped. -/
theorem grouping_correct_witness :
    groupBySlug wSummaries = .ok (canonicalGroup wSummaries) ∧
    canonicalGroup wSummaries =
      [(Json.str "a",
        [Json.obj [("titleSlug", Json.str "a"), ("id", Json.num 1)],
         Json.obj [("titleSlug", Json.str "a"), ("id", Json.num 3)]]),
       (Json.str "b",
        [Json.obj [("titleSlug", Json.str "b"), ("id", Json.num 4)]])] :=
  ⟨(grouping_correct wSummaries
      (by
        intro sub hsub
        fin_cases hsub <;> exact ⟨_, rfl⟩)).1,
   by decide⟩

theorem inFlightCount_append (s1 s2 : SchedState) :
    inFlightCount (s1 ++ s2) = inFlightCount s1 + inFlightCount s2 := by
  simp [inFlightCount, List.filter_append]

/-- C9 — Concurrency bound: in every state reachable during a harvest or
retry pass, the number of item tasks with an in-flight network call never
exceeds the permit pool size (default `CONCURRENCY_LIMIT = 25`); permits
are acquired before an item's processing begins and released
unconditionally on completion or failure, so the bound holds even when a
task raises. -/
theorem concurrency_bound (limit n : Nat) (s : SchedState)
    (h : SchedReachable limit n s) :
    inFlightCount s ≤ limit ∧ CONCURRENCY_LIMIT = 25 := by
  refine ⟨?_, rfl⟩
  induction h with
  | init =>
    have : inFlightCount (List.replicate n TaskPhase.pending) = 0 := by
      rw [inFlightCount, List.length_eq_zero]
      refine List.filter_eq_nil_iff.mpr fun p hp => ?_
      have hp' := List.eq_of_mem_replicate hp
      simp [hp']
    omega
  | step hr hs ih =>
    cases hs with
    | start s1 s2 hlt =>
      have hb := inFlightCount_append s1 (TaskPhase.pending :: s2)
      have ha := inFlightCount_append s1 (TaskPhase.inFlight :: s2)
      simp [inFlightCount] at hb ha hlt ⊢
      omega
    | finish s1 s2 ok =>
      have hb := inFlightCount_append s1 (TaskPhase.inFlight :: s2)
      have ha := inFlightCount_append s1 (TaskPhase.done ok :: s2)
      simp [inFlightCount] at hb ha ih ⊢
      omega

/-- Witness for C9: a concrete reachable state of two tasks under the
default pool in which one task has acquired the permit. -/
theorem concurrency_bound_witness :
    inFlightCount [TaskPhase.inFlight, TaskPhase.pending] ≤
      CONCURRENCY_LIMIT ∧ CONCURRENCY_LIMIT = 25 :=
  concurrency_bound CONCURRENCY_LIMIT 2
    [TaskPhase.inFlight, TaskPhase.pending]
    (SchedReachable.step SchedReachable.init
      (SchedStep.start [] [TaskPhase.pending] (by decide)))

end Aurika
